import Mathlib

/-!
# Verification of the review-analytics pipeline

Shallow embedding of `src/review_analytics.py` (`ReviewAnalyzer`): the
review segmenter `_split_reviews`, the per-review sentiment classifier
`_analyze_single_review_sentiment`, the insight extractor
`_get_overall_insights`, the rule-based summary `_generate_summary_insights`,
and the orchestrator `analyze_reviews`.

Strings are modelled as `List Char`.  The two language-model collaborator
calls are modelled as explicit fallible inputs (`Option (List Char)`):
`none` stands for the collaborator call raising an exception, `some r` for
it returning the raw response text `r`.  Python float percentage arithmetic
is modelled over `ℚ`; `round(x, 1)` is modelled as round-half-up over `ℚ`
(the claims checked here never sit on a half-way or float-rounding
boundary).
-/

/-- Whitespace as recognised by Python's `str.strip` / `\s` (ASCII range,
which is all the inputs considered here use). -/
def isSpace (c : Char) : Bool :=
  c = ' ' || c = '\t' || c = '\n' || c = '\r' || c = '\x0b' || c = '\x0c'

/-- Python `str.strip()`: drop leading and trailing whitespace. -/
def trimChars (l : List Char) : List Char :=
  ((l.dropWhile isSpace).reverse.dropWhile isSpace).reverse

/-- Prepend a character to the first (currently forming) piece of a split
result. -/
def consHead (c : Char) : List (List Char) → List (List Char)
  | [] => [[c]]
  | h :: t => (c :: h) :: t

/-- Python `text.split('\n\n')`: greedy left-to-right split on the literal
two-newline separator (method 1 of `_split_reviews`). -/
def splitDoubleNL : List Char → List (List Char)
  | [] => [[]]
  | [c] => [[c]]
  | c :: d :: t =>
    if c = '\n' ∧ d = '\n' then [] :: splitDoubleNL t
    else consHead c (splitDoubleNL (d :: t))

/-- A match of the regex `\d+\.\s*` anchored at the head of `l`: one or
more digits, a literal dot, then greedy whitespace.  Returns the remainder
after the match, or `none` when the pattern does not match here. -/
def matchNum (l : List Char) : Option (List Char) :=
  let ds := l.takeWhile Char.isDigit
  if ds.isEmpty then none
  else
    match l.dropWhile Char.isDigit with
    | '.' :: r => some (r.dropWhile isSpace)
    | _ => none

/-- Model of `re.split(r'\d+\.\s*', text)` with explicit fuel (every match consumes
at least two characters, so fuel `= length` suffices). -/
def reSplitNumF : Nat → List Char → List (List Char)
  | _, [] => [[]]
  | 0, l => [l]
  | fuel + 1, c :: t =>
    match matchNum (c :: t) with
    | some rest => [] :: reSplitNumF fuel rest
    | none => consHead c (reSplitNumF fuel t)

/-- Method 2 of `_split_reviews`: `re.split(r'\d+\.\s*', text)`. -/
def reSplitNum (l : List Char) : List (List Char) :=
  reSplitNumF l.length l

/-- A match of the regex `Review\s*:?\s*` (case-insensitive) anchored at
the head of `l`: the literal word, greedy whitespace, an optional colon,
then greedy whitespace again. -/
def matchReview (l : List Char) : Option (List Char) :=
  match l with
  | r :: e :: v :: i :: e2 :: w :: rest =>
    if r.toLower = 'r' ∧ e.toLower = 'e' ∧ v.toLower = 'v' ∧
        i.toLower = 'i' ∧ e2.toLower = 'e' ∧ w.toLower = 'w' then
      let r1 := rest.dropWhile isSpace
      match r1 with
      | ':' :: t2 => some (t2.dropWhile isSpace)
      | _ => some r1
    else none
  | _ => none

/-- Model of `re.split(r'Review\s*:?\s*', text, flags=re.IGNORECASE)` with fuel
(every match consumes at least six characters). -/
def reSplitReviewF : Nat → List Char → List (List Char)
  | _, [] => [[]]
  | 0, l => [l]
  | fuel + 1, c :: t =>
    match matchReview (c :: t) with
    | some rest => [] :: reSplitReviewF fuel rest
    | none => consHead c (reSplitReviewF fuel t)

/-- Method 3 of `_split_reviews`. -/
def reSplitReview (l : List Char) : List (List Char) :=
  reSplitReviewF l.length l

/-- Model of `[r.strip() for r in reviews if r.strip()]`: trim every piece and keep
the non-empty ones. -/
def cleanPieces (l : List (List Char)) : List (List Char) :=
  (l.map trimChars).filter (fun r => !r.isEmpty)

/-- Embedding of `ReviewAnalyzer._split_reviews`: try the three split strategies in
order, committing to the first whose raw split has more than one piece;
otherwise the trimmed whole text is the single review (or nothing when
blank). -/
def splitReviews (text : List Char) : List (List Char) :=
  let m1 := splitDoubleNL text
  if 1 < m1.length then cleanPieces m1
  else
    let m2 := reSplitNum text
    if 1 < m2.length then cleanPieces m2
    else
      let m3 := reSplitReview text
      if 1 < m3.length then cleanPieces m3
      else if (trimChars text).isEmpty then [] else [trimChars text]

/-- The string `'positive'`. -/
def posLabel : List Char := "positive".toList

/-- The string `'negative'`. -/
def negLabel : List Char := "negative".toList

/-- The string `'neutral'`. -/
def neuLabel : List Char := "neutral".toList

/-- Python `needle in hay` on strings: substring containment. -/
def hasSubstr (needle : List Char) : List Char → Bool
  | [] => needle.isEmpty
  | c :: t => needle.isPrefixOf (c :: t) || hasSubstr needle t

/-- Embedding of `ReviewAnalyzer._analyze_single_review_sentiment`, as a function of the
collaborator's raw response for this review (`none` models the
`generate_content` call raising, caught by the `except` branch). -/
def analyzeSingleSentiment (resp : Option (List Char)) : List Char :=
  match resp with
  | none => neuLabel
  | some r =>
    let s := (trimChars r).map Char.toLower
    if s = posLabel ∨ s = negLabel ∨ s = neuLabel then s
    else if hasSubstr posLabel s then posLabel
    else if hasSubstr negLabel s then negLabel
    else neuLabel

/-- Python `line.startswith('•') or line.startswith('-') or
line.startswith('*')`. -/
def startsBullet (l : List Char) : Bool :=
  match l with
  | c :: _ => c = '•' || c = '-' || c = '*'
  | [] => false

/-- Membership in the character set of Python `line.lstrip('•-* ')`. -/
def isBulletStripChar (c : Char) : Bool :=
  c = '•' || c = '-' || c = '*' || c = ' '

/-- Token counting for Python `len(line.split())`: number of maximal
whitespace-free runs.  The flag records whether the scan is currently
inside a token. -/
def tokenCount : List Char → Bool → Nat
  | [], _ => 0
  | c :: t, inTok =>
    if isSpace c then tokenCount t false
    else (if inTok then 0 else 1) + tokenCount t true

/-- Python `text.split('\n')`. -/
def splitOnChar (sep : Char) : List Char → List (List Char)
  | [] => [[]]
  | c :: t => if c = sep then [] :: splitOnChar sep t else consHead c (splitOnChar sep t)

/-- The line-acceptance loop of `_get_overall_insights`: bullet lines are
kept with all leading `•-* ` characters stripped (and dropped when nothing
remains), other non-empty lines are kept whole when they have more than 3
whitespace-separated tokens. -/
def parseInsightLines : List (List Char) → List (List Char)
  | [] => []
  | line :: rest =>
    let l := trimChars line
    if l ≠ [] ∧ startsBullet l = true then
      let ins := trimChars (l.dropWhile isBulletStripChar)
      if ins ≠ [] then ins :: parseInsightLines rest else parseInsightLines rest
    else if l ≠ [] ∧ 3 < tokenCount l false then l :: parseInsightLines rest
    else parseInsightLines rest

/-- The fallback string of `_get_overall_insights`. -/
def unableMsg : List Char := "Unable to generate insights from reviews".toList

/-- Embedding of `ReviewAnalyzer._get_overall_insights`, as a function of the
collaborator's raw response for the insights prompt (`none` models the
call raising). -/
def getOverallInsights (resp : Option (List Char)) : List (List Char) :=
  match resp with
  | none => [unableMsg]
  | some t => (parseInsightLines (splitOnChar '\n' t)).take 7

/-- The sentiment-distribution dict
`{'Positive': …, 'Neutral': …, 'Negative': …}`. -/
structure SentDist where
  pos : Nat
  neu : Nat
  neg : Nat
deriving DecidableEq

/-- Model of `Counter(sentiments)` read back through the three label keys. -/
def mkDist (sentiments : List (List Char)) : SentDist :=
  ⟨sentiments.count posLabel, sentiments.count neuLabel, sentiments.count negLabel⟩

/-- Python `round(x, 1)` over `ℚ`, using round-to-nearest (`round`), which
agrees with Python's float rounding at every value arising in this
development (none sits on a half-way or float-representation boundary). -/
def round10 (q : ℚ) : ℚ := (round (q * 10) : ℤ) / 10

/-- One entry of the `sentiment_percentages` dict comprehension:
`round((v/total)*100, 1) if total_reviews > 0 else 0`. -/
def roundPct (v total : Nat) : ℚ :=
  if 0 < total then round10 ((v : ℚ) / (total : ℚ) * 100) else 0

/-- The `sentiment_percentages` dict. -/
structure Pcts where
  pos : ℚ
  neu : ℚ
  neg : ℚ
deriving DecidableEq

/-- The `sentiment_percentages` dict comprehension over the distribution. -/
def mkPcts (d : SentDist) (total : Nat) : Pcts :=
  ⟨roundPct d.pos total, roundPct d.neu total, roundPct d.neg total⟩

/-- Rule-insight message for `positive_pct > 70`. -/
def overwhelmMsg : List Char :=
  "Overwhelmingly positive reviews - visitors love this destination!".toList

/-- Rule-insight message for `positive_pct > 50`. -/
def genPosMsg : List Char :=
  "Generally positive sentiment with most visitors having good experiences".toList

/-- Rule-insight message for `negative_pct > 50`. -/
def concernMsg : List Char :=
  "Concerning number of negative reviews - consider investigating common issues".toList

/-- Rule-insight message of the final `else`. -/
def mixedMsg : List Char :=
  "Mixed reviews with varied visitor experiences".toList

/-- Rule-insight message for `Positive > Negative * 2`. -/
def strongMsg : List Char :=
  "Strong positive sentiment indicates high visitor satisfaction".toList

/-- Embedding of `ReviewAnalyzer._generate_summary_insights`.  The percentages the
Python code computes in floats are modelled exactly over `ℚ`. -/
def generateSummaryInsights (d : SentDist) (total : Nat) : List (List Char) :=
  if total = 0 then []
  else
    let posPct : ℚ := (d.pos : ℚ) / (total : ℚ) * 100
    let negPct : ℚ := (d.neg : ℚ) / (total : ℚ) * 100
    let base :=
      if 70 < posPct then [overwhelmMsg]
      else if 50 < posPct then [genPosMsg]
      else if 50 < negPct then [concernMsg]
      else [mixedMsg]
    if d.neg * 2 < d.pos then base ++ [strongMsg] else base

/-- The error message of `analyze_reviews`. -/
def noValidMsg : List Char := "No valid reviews found".toList

/-- The return value of `analyze_reviews`: either the error dict
`{"error": …}` or the full result dict. -/
inductive AnalysisResult where
  | err (msg : List Char)
  | ok (total_reviews : Nat) (sentiment_distribution : SentDist)
      (insights : List (List Char)) (sentiment_percentages : Pcts)
deriving DecidableEq

/-- Projection: `total_reviews` of a non-error result. -/
def AnalysisResult.totalReviews : AnalysisResult → Option Nat
  | .err _ => none
  | .ok t _ _ _ => some t

/-- Projection: `sentiment_distribution` of a non-error result. -/
def AnalysisResult.distribution : AnalysisResult → Option SentDist
  | .err _ => none
  | .ok _ d _ _ => some d

/-- Embedding of `ReviewAnalyzer.analyze_reviews`.  `sentOracle` gives the sentiment
collaborator's raw response for each review submitted to it, `insResp`
the insight collaborator's response for the full text; `none` models a
raised exception. -/
def analyzeReviews (sentOracle : List Char → Option (List Char))
    (insResp : Option (List Char)) (text : List Char) : AnalysisResult :=
  let reviews := splitReviews text
  if reviews.isEmpty then .err noValidMsg
  else
    let sentiments :=
      (reviews.filter (fun r => 10 < (trimChars r).length)).map
        (fun r => analyzeSingleSentiment (sentOracle r))
    let overallInsights := getOverallInsights insResp
    let d := mkDist sentiments
    let total := sentiments.length
    let summary := generateSummaryInsights d total
    .ok total d (overallInsights ++ summary) (mkPcts d total)

/-! ## Helper lemmas -/

theorem consHead_all {p : Char → Bool} {c : Char} {L : List (List Char)}
    (hc : p c = true) (hL : L.all (fun piece => piece.all p) = true) :
    (consHead c L).all (fun piece => piece.all p) = true := by
  cases L with
  | nil => simp [consHead, hc]
  | cons h t =>
    simp only [consHead, List.all_cons, Bool.and_eq_true] at hL ⊢
    exact ⟨⟨hc, hL.1⟩, hL.2⟩

theorem splitDoubleNL_all {p : Char → Bool} :
    ∀ t : List Char, t.all p = true →
      (splitDoubleNL t).all (fun piece => piece.all p) = true
  | [], _ => by simp [splitDoubleNL]
  | [c], h => by simp_all [splitDoubleNL]
  | c :: d :: t, h => by
    have hc : p c = true := by simp_all
    have hd : p d = true := by simp_all
    have ht : t.all p = true := by simp_all
    have hdt : (d :: t).all p = true := by simp_all
    simp only [splitDoubleNL]
    split
    · simpa using splitDoubleNL_all t ht
    · exact consHead_all hc (splitDoubleNL_all (d :: t) hdt)

theorem isSpace_not_digit_not_r {c : Char} (h : isSpace c = true) :
    c.isDigit = false ∧ c.toLower ≠ 'r' := by
  revert h
  simp only [isSpace, Bool.or_eq_true, decide_eq_true_eq]
  rintro (((((rfl | rfl) | rfl) | rfl) | rfl) | rfl) <;> exact ⟨by decide, by decide⟩

theorem matchNum_none {c : Char} {t : List Char} (h : c.isDigit = false) :
    matchNum (c :: t) = none := by
  simp [matchNum, List.takeWhile_cons, h]

theorem reSplitNumF_space :
    ∀ (fuel : Nat) (t : List Char), t.all isSpace = true → reSplitNumF fuel t = [t]
  | 0, [], _ => rfl
  | _ + 1, [], _ => rfl
  | 0, _ :: _, _ => rfl
  | fuel + 1, c :: t, h => by
    have hc : isSpace c = true := by simp_all
    have ht : t.all isSpace = true := by simp_all
    simp only [reSplitNumF, matchNum_none (isSpace_not_digit_not_r hc).1,
      reSplitNumF_space fuel t ht, consHead]

theorem matchReview_none {c : Char} {t : List Char} (h : c.toLower ≠ 'r') :
    matchReview (c :: t) = none := by
  match t with
  | [] => rfl
  | [_] => rfl
  | [_, _] => rfl
  | [_, _, _] => rfl
  | [_, _, _, _] => rfl
  | _ :: _ :: _ :: _ :: _ :: _ =>
    simp only [matchReview]
    rw [if_neg]
    rintro ⟨h1, -⟩
    exact h h1

theorem reSplitReviewF_space :
    ∀ (fuel : Nat) (t : List Char), t.all isSpace = true → reSplitReviewF fuel t = [t]
  | 0, [], _ => rfl
  | _ + 1, [], _ => rfl
  | 0, _ :: _, _ => rfl
  | fuel + 1, c :: t, h => by
    have hc : isSpace c = true := by simp_all
    have ht : t.all isSpace = true := by simp_all
    simp only [reSplitReviewF, matchReview_none (isSpace_not_digit_not_r hc).2,
      reSplitReviewF_space fuel t ht, consHead]

theorem trimChars_eq_nil_of_all {t : List Char} (h : t.all isSpace = true) :
    trimChars t = [] := by
  have h1 : t.dropWhile isSpace = [] := by
    rw [List.dropWhile_eq_nil_iff]
    intro x hx
    simpa using List.all_eq_true.mp h x hx
  simp [trimChars, h1]

theorem all_space_of_trim_eq_nil {t : List Char} (h : trimChars t = []) :
    t.all isSpace = true := by
  rw [List.all_eq_true]
  have h2 : (t.dropWhile isSpace).reverse.dropWhile isSpace = [] := by
    simpa [trimChars, List.reverse_eq_nil_iff] using h
  have h3 : ∀ x ∈ t.dropWhile isSpace, isSpace x = true := by
    intro x hx
    have := List.dropWhile_eq_nil_iff.mp h2 x (by simpa using hx)
    simpa using this
  intro x hx
  rcases List.mem_append.mp ((List.takeWhile_append_dropWhile (p := isSpace) (l := t)) ▸ hx) with
    hx1 | hx2
  · simpa using List.mem_takeWhile_imp hx1
  · simpa using h3 x hx2

theorem cleanPieces_eq_nil {l : List (List Char)}
    (h : ∀ piece ∈ l, piece.all isSpace = true) : cleanPieces l = [] := by
  rw [cleanPieces, List.filter_eq_nil_iff]
  intro a ha
  rcases List.mem_map.mp ha with ⟨piece, hp, rfl⟩
  simp [trimChars_eq_nil_of_all (h piece hp)]

/-! ## C1 -/

/-- C1 (counterexample): for the input `"1. alpha\n\n"`, the blank-line
split has two raw pieces (`"1. alpha"` and `""`), so `_split_reviews`
commits to the blank-line strategy even though it yields only one
non-empty trimmed piece, returning `["1. alpha"]` — not `["alpha"]` as the
claim predicts via the numbered-marker strategy. -/
theorem splitReviews_numbered_trailing_blank_cex :
    splitReviews "1. alpha\n\n".toList = ["1. alpha".toList] ∧
    splitReviews "1. alpha\n\n".toList ≠ ["alpha".toList] := by
  exact ⟨by decide, by decide⟩

/-- C1 (amended): `_split_reviews` commits to the first strategy whose raw
split yields more than one piece, counting empty pieces, and only then
filters to the non-empty trimmed ones: whenever the blank-line split has
more than one raw piece the blank-line strategy is used, and the
numbered-marker strategy is reached only when the blank-line split is a
single piece. -/
theorem splitReviews_first_strategy_raw_count :
    (∀ t : List Char, 1 < (splitDoubleNL t).length →
      splitReviews t = cleanPieces (splitDoubleNL t)) ∧
    (∀ t : List Char, ¬1 < (splitDoubleNL t).length → 1 < (reSplitNum t).length →
      splitReviews t = cleanPieces (reSplitNum t)) := by
  constructor
  · intro t h
    simp only [splitReviews]
    rw [if_pos h]
  · intro t h1 h2
    simp only [splitReviews]
    rw [if_neg h1, if_pos h2]

/-- Witness for C1 (amended) at the counterexample input and at a numbered
input without blank lines. -/
theorem splitReviews_first_strategy_raw_count_witness :
    (1 < (splitDoubleNL "1. alpha\n\n".toList).length ∧
      splitReviews "1. alpha\n\n".toList = cleanPieces (splitDoubleNL "1. alpha\n\n".toList)) ∧
    (¬1 < (splitDoubleNL "1. alpha".toList).length ∧ 1 < (reSplitNum "1. alpha".toList).length ∧
      splitReviews "1. alpha".toList = cleanPieces (reSplitNum "1. alpha".toList)) :=
  ⟨⟨by decide, splitReviews_first_strategy_raw_count.1 _ (by decide)⟩,
    ⟨by decide, by decide, splitReviews_first_strategy_raw_count.2 _ (by decide) (by decide)⟩⟩

/-! ## C2 -/

/-- C2 (counterexample): the input `"12."` has a non-empty trimmed form,
yet `_split_reviews` returns the empty sequence: the numbered-marker split
of `"12."` is `["", ""]` (two raw pieces), the strategy commits, and both
pieces are discarded as empty.  So "empty output only for blank input"
fails. -/
theorem splitReviews_marker_only_input_cex :
    trimChars "12.".toList ≠ [] ∧ splitReviews "12.".toList = [] := by
  exact ⟨by decide, by decide⟩

/-- C2 (amended): every blank (whitespace-only) input produces an empty
sequence; the converse direction of the claim is dropped, since a
non-blank input consisting only of separator markers (such as `"12."`)
also produces an empty sequence. -/
theorem splitReviews_blank_input_empty (text : List Char) (h : trimChars text = []) :
    splitReviews text = [] := by
  have hall : text.all isSpace = true := all_space_of_trim_eq_nil h
  simp only [splitReviews]
  by_cases h1 : 1 < (splitDoubleNL text).length
  · rw [if_pos h1]
    apply cleanPieces_eq_nil
    intro piece hp
    exact List.all_eq_true.mp (splitDoubleNL_all text hall) piece hp
  · rw [if_neg h1]
    have h2 : reSplitNum text = [text] := reSplitNumF_space _ _ hall
    have h3 : reSplitReview text = [text] := reSplitReviewF_space _ _ hall
    rw [h2, h3]
    simp [h]

/-- Witness for C2 (amended) at a whitespace-only input containing a
blank-line separator. -/
theorem splitReviews_blank_input_empty_witness :
    trimChars " \n\n ".toList = [] ∧ splitReviews " \n\n ".toList = [] :=
  ⟨by decide, splitReviews_blank_input_empty _ (by decide)⟩

/-! ## C3 -/

/-- C3: whenever segmentation yields zero segments, `analyze_reviews`
returns the error dict `{"error": "No valid reviews found"}` (the `err`
variant carrying exactly that message and nothing else), for every
collaborator behaviour. -/
theorem analyzeReviews_no_valid_reviews_error
    (sentOracle : List Char → Option (List Char)) (insResp : Option (List Char))
    (text : List Char) (h : splitReviews text = []) :
    analyzeReviews sentOracle insResp text = .err noValidMsg := by
  simp [analyzeReviews, h]

/-- Witness for C3 at whitespace-only input. -/
theorem analyzeReviews_no_valid_reviews_error_witness :
    splitReviews "   ".toList = [] ∧
    analyzeReviews (fun _ => none) none "   ".toList = .err noValidMsg :=
  ⟨by decide, analyzeReviews_no_valid_reviews_error _ _ _ (by decide)⟩

/-! ## C5 -/

/-- C5: on any non-empty segmentation, `analyze_reviews` classifies
exactly the segments whose trimmed length exceeds 10 characters:
`total_reviews` is the number of such segments, and the distribution is
the label count over the classifications of exactly those segments. -/
theorem analyzeReviews_total_eligible
    (sentOracle : List Char → Option (List Char)) (insResp : Option (List Char))
    (text : List Char) (h : splitReviews text ≠ []) :
    (analyzeReviews sentOracle insResp text).totalReviews =
      some (((splitReviews text).filter (fun r => 10 < (trimChars r).length)).length) ∧
    (analyzeReviews sentOracle insResp text).distribution =
      some (mkDist (((splitReviews text).filter (fun r => 10 < (trimChars r).length)).map
        (fun r => analyzeSingleSentiment (sentOracle r)))) := by
  have h0 : (splitReviews text).isEmpty = false := by
    cases hs : splitReviews text
    · exact absurd hs h
    · rfl
  constructor <;>
    simp [analyzeReviews, h0, AnalysisResult.totalReviews, AnalysisResult.distribution]

/-- Witness for C5: an input segmenting into one 5-character and one
50-character segment has `total_reviews = 1`. -/
theorem analyzeReviews_total_eligible_witness :
    (splitReviews "abcde\n\nthis place was absolutely wonderful and beautiful!".toList).map
      List.length = [5, 50] ∧
    splitReviews "abcde\n\nthis place was absolutely wonderful and beautiful!".toList ≠ [] ∧
    (analyzeReviews (fun _ => some "positive".toList) none
      "abcde\n\nthis place was absolutely wonderful and beautiful!".toList).totalReviews =
      some 1 :=
  ⟨by decide, by decide,
    ((analyzeReviews_total_eligible _ _ _ (by decide)).1).trans (by decide)⟩

/-! ## C10 -/

/-- C10: the numbered-marker strategy splits at a digit-period occurrence
in the middle of a sentence, not only at line-leading enumeration markers:
`"I rated it 4. Great stay overall"` is split into two segments inside the
sentence. -/
theorem splitReviews_mid_sentence_number :
    splitReviews "I rated it 4. Great stay overall".toList =
      ["I rated it".toList, "Great stay overall".toList] ∧
    1 < (splitReviews "I rated it 4. Great stay overall".toList).length := by
  exact ⟨by decide, by decide⟩

/-! ## C4 -/

/-- Spec-side rendering of the classifier chain, written from the spec's
words for comparison with the code: on the normalized (trimmed,
lowercased) response, an exact match with one of the three labels wins,
else substring containment of "positive", else of "negative", else
neutral; a failed collaborator call yields neutral. -/
def classifySpecSide (resp : Option (List Char)) : List Char :=
  match resp with
  | none => neuLabel
  | some r =>
    let s := (trimChars r).map Char.toLower
    if s = posLabel then posLabel
    else if s = negLabel then negLabel
    else if s = neuLabel then neuLabel
    else if hasSubstr posLabel s then posLabel
    else if hasSubstr negLabel s then negLabel
    else neuLabel

/-- C4: the classifier agrees with the spec's normalization-and-fallback
chain on every collaborator response (including a failed call, which
yields neutral without propagating), and it is total: its result is
always one of the three labels. -/
theorem classify_total_and_matches_spec (resp : Option (List Char)) :
    analyzeSingleSentiment resp = classifySpecSide resp ∧
    (analyzeSingleSentiment resp = posLabel ∨ analyzeSingleSentiment resp = negLabel ∨
      analyzeSingleSentiment resp = neuLabel) := by
  cases resp with
  | none => exact ⟨rfl, Or.inr (Or.inr rfl)⟩
  | some r =>
    simp only [analyzeSingleSentiment, classifySpecSide]
    by_cases h1 : (trimChars r).map Char.toLower = posLabel
    · simp [h1]
    · by_cases h2 : (trimChars r).map Char.toLower = negLabel
      · simp [h1, h2, show negLabel ≠ posLabel from by decide]
      · by_cases h3 : (trimChars r).map Char.toLower = neuLabel
        · simp [h1, h2, h3, show neuLabel ≠ posLabel from by decide,
            show neuLabel ≠ negLabel from by decide]
        · by_cases h4 : hasSubstr posLabel ((trimChars r).map Char.toLower) = true
          · simp [h1, h2, h3, h4]
          · by_cases h5 : hasSubstr negLabel ((trimChars r).map Char.toLower) = true <;>
              simp [h1, h2, h3, h4, h5]

/-! ## C6 -/

/-- C6: for every sequence of sentiment labels, the three counts of the
aggregated distribution are non-negative (they are naturals) and sum to
the length of the sequence. -/
theorem mkDist_counts_sum (sentiments : List (List Char))
    (h : ∀ s ∈ sentiments, s = posLabel ∨ s = neuLabel ∨ s = negLabel) :
    (mkDist sentiments).pos + (mkDist sentiments).neu + (mkDist sentiments).neg =
      sentiments.length := by
  induction sentiments with
  | nil => simp [mkDist]
  | cons a t ih =>
    have ht := ih (fun s hs => h s (List.mem_cons_of_mem _ hs))
    have hp1 : posLabel ≠ neuLabel := by decide
    have hp2 : posLabel ≠ negLabel := by decide
    have hp3 : neuLabel ≠ posLabel := by decide
    have hp4 : neuLabel ≠ negLabel := by decide
    have hp5 : negLabel ≠ posLabel := by decide
    have hp6 : negLabel ≠ neuLabel := by decide
    rcases h a (List.mem_cons_self _ _) with rfl | rfl | rfl <;>
      simp only [mkDist, List.count_cons, List.length_cons, beq_iff_eq, eq_self_iff_true,
        if_true, hp1, hp2, hp3, hp4, hp5, hp6, if_false] at ht ⊢ <;>
      omega

/-- Witness for C6 at a concrete label sequence. -/
theorem mkDist_counts_sum_witness :
    (mkDist [posLabel, negLabel, posLabel]).pos + (mkDist [posLabel, negLabel, posLabel]).neu +
      (mkDist [posLabel, negLabel, posLabel]).neg = 3 :=
  mkDist_counts_sum _ (by decide)

/-! ## C7 -/

/-- C7: with an empty classified-label sequence (total 0) no division is
performed: every sentiment percentage is defined as 0 and no rule-derived
insight is produced; through the pipeline, an input whose segments are all
short yields total 0, the all-zero distribution and percentages, and only
the extractor insights. -/
theorem analyzeReviews_zero_total :
    (∀ d : SentDist, mkPcts d 0 = ⟨0, 0, 0⟩ ∧ generateSummaryInsights d 0 = []) ∧
    (∀ (sentOracle : List Char → Option (List Char)) (insResp : Option (List Char))
      (text : List Char), splitReviews text ≠ [] →
      (splitReviews text).filter (fun r => 10 < (trimChars r).length) = [] →
      analyzeReviews sentOracle insResp text =
        .ok 0 ⟨0, 0, 0⟩ (getOverallInsights insResp) ⟨0, 0, 0⟩) := by
  constructor
  · intro d
    exact ⟨by simp [mkPcts, roundPct], by simp [generateSummaryInsights]⟩
  · intro sentOracle insResp text h h2
    have h0 : (splitReviews text).isEmpty = false := by
      cases hs : splitReviews text
      · exact absurd hs h
      · rfl
    simp [analyzeReviews, h0, h2, mkDist, generateSummaryInsights, mkPcts, roundPct]

/-- Witness for C7 at an input with two short segments. -/
theorem analyzeReviews_zero_total_witness :
    mkPcts ⟨3, 4, 5⟩ 0 = ⟨0, 0, 0⟩ ∧
    analyzeReviews (fun _ => none) none "hi\n\nyo".toList =
      .ok 0 ⟨0, 0, 0⟩ (getOverallInsights none) ⟨0, 0, 0⟩ :=
  ⟨(analyzeReviews_zero_total.1 ⟨3, 4, 5⟩).1,
    analyzeReviews_zero_total.2 _ _ _ (by decide) (by decide)⟩

/-! ## C8 -/

theorem pct_lt70_iff (a n : Nat) (hn : n ≠ 0) :
    ((70 : ℚ) < (a : ℚ) / (n : ℚ) * 100) ↔ 70 * n < a * 100 := by
  have hnpos : (0 : ℚ) < (n : ℚ) := by exact_mod_cast Nat.pos_of_ne_zero hn
  rw [div_mul_eq_mul_div, lt_div_iff₀ hnpos]
  constructor <;> intro h <;> exact_mod_cast h

theorem pct_lt50_iff (a n : Nat) (hn : n ≠ 0) :
    ((50 : ℚ) < (a : ℚ) / (n : ℚ) * 100) ↔ 50 * n < a * 100 := by
  have hnpos : (0 : ℚ) < (n : ℚ) := by exact_mod_cast Nat.pos_of_ne_zero hn
  rw [div_mul_eq_mul_div, lt_div_iff₀ hnpos]
  constructor <;> intro h <;> exact_mod_cast h

/-- Reformulation: `_generate_summary_insights` with its rational percentage thresholds
expressed as equivalent integer comparisons (valid since `total ≠ 0`). -/
theorem generateSummaryInsights_eq (d : SentDist) (n : Nat) (h : n ≠ 0) :
    generateSummaryInsights d n =
      (if 70 * n < d.pos * 100 then [overwhelmMsg]
       else if 50 * n < d.pos * 100 then [genPosMsg]
       else if 50 * n < d.neg * 100 then [concernMsg]
       else [mixedMsg]) ++
      (if d.neg * 2 < d.pos then [strongMsg] else []) := by
  simp only [generateSummaryInsights, if_neg h, pct_lt70_iff _ _ h, pct_lt50_iff _ _ h]
  split_ifs <;> simp

/-- C8: for every non-empty label sequence, exactly one of the four
threshold rule insights appears, chosen by the ordered if/else-if chain on
the positive and negative percentages, and the "strong positive" insight
appears exactly when the positive count exceeds twice the negative count;
concretely, counts Positive 8 / Neutral 1 / Negative 1 give percentages
80.0 / 10.0 / 10.0 and the insights [overwhelming, strong positive]. -/
theorem summary_insights_chain (sentiments : List (List Char)) (h : sentiments ≠ [])
    (d : SentDist) (_hd : d = mkDist sentiments) :
    (((generateSummaryInsights d sentiments.length).count overwhelmMsg +
      (generateSummaryInsights d sentiments.length).count genPosMsg +
      (generateSummaryInsights d sentiments.length).count concernMsg +
      (generateSummaryInsights d sentiments.length).count mixedMsg = 1) ∧
    (overwhelmMsg ∈ generateSummaryInsights d sentiments.length ↔
      70 * sentiments.length < d.pos * 100) ∧
    (genPosMsg ∈ generateSummaryInsights d sentiments.length ↔
      (d.pos * 100 ≤ 70 * sentiments.length ∧ 50 * sentiments.length < d.pos * 100)) ∧
    (concernMsg ∈ generateSummaryInsights d sentiments.length ↔
      (d.pos * 100 ≤ 50 * sentiments.length ∧ 50 * sentiments.length < d.neg * 100)) ∧
    (mixedMsg ∈ generateSummaryInsights d sentiments.length ↔
      (d.pos * 100 ≤ 50 * sentiments.length ∧ d.neg * 100 ≤ 50 * sentiments.length)) ∧
    (strongMsg ∈ generateSummaryInsights d sentiments.length ↔ d.neg * 2 < d.pos)) ∧
    mkPcts ⟨8, 1, 1⟩ 10 = ⟨80, 10, 10⟩ ∧
    generateSummaryInsights ⟨8, 1, 1⟩ 10 = [overwhelmMsg, strongMsg] := by
  have hn : sentiments.length ≠ 0 := fun hl => h (List.length_eq_zero.mp hl)
  have mne1 : overwhelmMsg ≠ genPosMsg := by decide
  have mne2 : overwhelmMsg ≠ concernMsg := by decide
  have mne3 : overwhelmMsg ≠ mixedMsg := by decide
  have mne4 : overwhelmMsg ≠ strongMsg := by decide
  have mne5 : genPosMsg ≠ overwhelmMsg := by decide
  have mne6 : genPosMsg ≠ concernMsg := by decide
  have mne7 : genPosMsg ≠ mixedMsg := by decide
  have mne8 : genPosMsg ≠ strongMsg := by decide
  have mne9 : concernMsg ≠ overwhelmMsg := by decide
  have mne10 : concernMsg ≠ genPosMsg := by decide
  have mne11 : concernMsg ≠ mixedMsg := by decide
  have mne12 : concernMsg ≠ strongMsg := by decide
  have mne13 : mixedMsg ≠ overwhelmMsg := by decide
  have mne14 : mixedMsg ≠ genPosMsg := by decide
  have mne15 : mixedMsg ≠ concernMsg := by decide
  have mne16 : mixedMsg ≠ strongMsg := by decide
  have mne17 : strongMsg ≠ overwhelmMsg := by decide
  have mne18 : strongMsg ≠ genPosMsg := by decide
  have mne19 : strongMsg ≠ concernMsg := by decide
  have mne20 : strongMsg ≠ mixedMsg := by decide
  refine ⟨?_, ?_, ?_⟩
  · rw [generateSummaryInsights_eq d sentiments.length hn]
    split_ifs <;>
      refine ⟨by decide, ?_, ?_, ?_, ?_, ?_⟩ <;>
      simp only [List.mem_append, List.mem_cons, List.mem_singleton, List.not_mem_nil,
        eq_self_iff_true, mne1, mne2, mne3, mne4, mne5, mne6, mne7, mne8, mne9, mne10, mne11, mne12, mne13, mne14, mne15, mne16, mne17, mne18, mne19, mne20, true_or, or_true, or_false, false_or,
        true_iff, false_iff, iff_true, iff_false] <;>
      omega
  · norm_num [mkPcts, roundPct, round10]
  · rw [generateSummaryInsights_eq ⟨8, 1, 1⟩ 10 (by norm_num)]
    decide

/-- Witness for C8 at the label sequence with 8 positive, 1 negative and
1 neutral labels. -/
theorem summary_insights_chain_witness :
    (overwhelmMsg ∈ generateSummaryInsights
      (mkDist (List.replicate 8 posLabel ++ [negLabel, neuLabel]))
      (List.replicate 8 posLabel ++ [negLabel, neuLabel]).length ∧
    strongMsg ∈ generateSummaryInsights
      (mkDist (List.replicate 8 posLabel ++ [negLabel, neuLabel]))
      (List.replicate 8 posLabel ++ [negLabel, neuLabel]).length) ∧
    mkPcts ⟨8, 1, 1⟩ 10 = ⟨80, 10, 10⟩ := by
  have H := summary_insights_chain (List.replicate 8 posLabel ++ [negLabel, neuLabel])
    (by decide) (mkDist (List.replicate 8 posLabel ++ [negLabel, neuLabel])) rfl
  exact ⟨⟨H.1.2.1.mpr (by decide), H.1.2.2.2.2.2.mpr (by decide)⟩, H.2.1⟩

/-! ## C9 -/

/-- The per-line acceptance rule of `_get_overall_insights` as a single
`Option`-valued function (amended wording): a non-empty trimmed line
starting with a bullet marker is kept with its whole leading run of
`•-* ` characters stripped, and discarded when nothing remains; a
non-empty trimmed line without a bullet marker is kept whole when it has
more than 3 whitespace-separated tokens. -/
def acceptLine (line : List Char) : Option (List Char) :=
  let l := trimChars line
  if l ≠ [] ∧ startsBullet l = true then
    let ins := trimChars (l.dropWhile isBulletStripChar)
    if ins ≠ [] then some ins else none
  else if l ≠ [] ∧ 3 < tokenCount l false then some l
  else none

theorem parseInsightLines_eq_filterMap (lines : List (List Char)) :
    parseInsightLines lines = lines.filterMap acceptLine := by
  induction lines with
  | nil => rfl
  | cons line rest ih =>
    simp only [parseInsightLines, acceptLine, List.filterMap_cons]
    split_ifs <;> simp [ih]

/-- The claim's acceptance rule taken literally: strip only THE bullet
marker (one character) and the whitespace following it, and keep every
accepted line, with no non-empty requirement after stripping.  Spec-side
definition, for comparison against the code. -/
def acceptLineSpec (line : List Char) : Option (List Char) :=
  let l := trimChars line
  match l with
  | [] => none
  | c :: t =>
    if c = '•' ∨ c = '-' ∨ c = '*' then some (t.dropWhile isSpace)
    else if 3 < tokenCount l false then some l
    else none

/-- The claim's extraction rule, spec side: accepted lines in encounter
order, truncated to 7. -/
def specInsightRule (t : List Char) : List (List Char) :=
  ((splitOnChar '\n' t).filterMap acceptLineSpec).take 7

/-- C9 (counterexample): for the collaborator response
`"- - good location near beach"`, the code strips the whole leading run
of marker characters via `lstrip('•-* ')` and returns
`["good location near beach"]`, while the claim's rule (strip the one
marker and following whitespace) would return
`["- good location near beach"]`. -/
theorem insights_marker_strip_cex :
    getOverallInsights (some "- - good location near beach".toList) =
      ["good location near beach".toList] ∧
    specInsightRule "- - good location near beach".toList =
      ["- good location near beach".toList] ∧
    getOverallInsights (some "- - good location near beach".toList) ≠
      specInsightRule "- - good location near beach".toList := by
  exact ⟨by decide, by decide, by decide⟩

/-- C9 (amended): `extract_insights` returns, in encounter order and
truncated to at most 7 entries, exactly the lines accepted by the rule
"starts with a bullet marker — the whole leading run of marker characters
and spaces is stripped, discarding the line when nothing remains — or has
more than 3 whitespace-separated tokens"; on collaborator failure it
returns the single literal fallback string. -/
theorem insights_extraction_amended :
    (∀ t : List Char,
      getOverallInsights (some t) = ((splitOnChar '\n' t).filterMap acceptLine).take 7) ∧
    getOverallInsights none = [unableMsg] ∧
    (∀ resp : Option (List Char), (getOverallInsights resp).length ≤ 7) := by
  refine ⟨fun t => ?_, rfl, fun resp => ?_⟩
  · rw [getOverallInsights, parseInsightLines_eq_filterMap]
  · cases resp with
    | none => simp [getOverallInsights]
    | some t =>
      simp only [getOverallInsights, List.length_take]
      exact min_le_left _ _
